import Mathlib

/-!
Verification of the archetype/bundle/query core of the `edict` ECS storage
engine, shallowly embedded in Lean 4.

Type identities (`TypeId`) and entity identifiers are modelled as natural
numbers.  Epochs are the `u64` counters of the source, modelled as `Nat`
(the source never wraps them; they only grow towards the world epoch).
Component values are abstracted as one `Nat` per row: byte copies become
value copies, `drop` calls become no-ops, which is faithful for every
property below (none observes destructors or raw bytes).

Each definition is translated from the corresponding Rust item of
`src/archetype.rs`, `src/bundle.rs` and `src/query/*.rs`; the few places
where a source module is absent from the snapshot are modelled from the
spec and marked as such.
-/

namespace Edict

/-! ## Chunk arithmetic (`src/archetype.rs`) -/

/-- `CHUNK_LEN_USIZE = 0x100`. -/
def CHUNK_LEN : Nat := 0x100

/-- `chunk_idx(idx) = idx >> 8`. -/
def chunkIdx (idx : Nat) : Nat := idx >>> 8

/-- `chunks_count(entities) = entities + (CHUNK_LEN_USIZE - 1) / CHUNK_LEN_USIZE`,
verbatim from the source, operator precedence included. -/
def chunksCount (entities : Nat) : Nat := entities + (CHUNK_LEN - 1) / CHUNK_LEN

/-- The mathematically correct chunk count the spec prescribes:
`ceil(entities / CHUNK_LEN)`. -/
def chunksCountSpec (entities : Nat) : Nat := (entities + CHUNK_LEN - 1) / CHUNK_LEN

/-- `ComponentData::grow` reallocates the `chunk_versions` array iff
`chunks_count(new_cap) > chunks_count(old_cap)` (source line 306). -/
def growReallocatesChunks (oldCap newCap : Nat) : Bool :=
  chunksCount newCap > chunksCount oldCap

/-- `first_of_chunk(idx)`: `Some(chunk_idx(idx))` when `idx % CHUNK_LEN == 0`. -/
def firstOfChunk (idx : Nat) : Option Nat :=
  if idx % CHUNK_LEN == 0 then some (chunkIdx idx) else none

/-! ## Bundle validity (`src/bundle.rs`) -/

/-- `Bundle::static_valid` for a tuple whose component `TypeId`s are `ids`,
translated from the source loop:

```rust
let mut ids: &[_] = &[...];
while let [check, rest @ ..] = ids {
    let mut rest = rest;
    if let [head, tail @ ..] = rest {
        if head == check { return false; }
        rest = tail;
    }
    ids = rest;
}
true
```

Each outer iteration destructures `ids` into `check :: rest`; the inner
`if let` (not a loop) compares `check` against the first element of `rest`
only, and then the whole head pair is dropped. -/
def staticValid : List Nat → Bool
  | [] => true
  | [_] => true
  | check :: head :: tail => if head == check then false else staticValid tail

/-! ## Columns and archetypes (`src/archetype.rs`) -/

/-- One `ComponentData` column: a component `TypeId`, the column-wide
`version`, per-row `entity_versions`, per-chunk `chunk_versions` and the
row values.  The version arrays and the value array are modelled as total
functions (the source grows them on demand and zero-initialises tails). -/
structure Column where
  id : Nat
  version : Nat
  entityV : Nat → Nat
  chunkV : Nat → Nat
  values : Nat → Nat

/-- An inert placeholder column (used only as a `getD` default). -/
def dummyColumn : Column := ⟨0, 0, fun _ => 0, fun _ => 0, fun _ => 0⟩

/-- An archetype: the entity-id row array and the real columns in dense
index order (the source keeps them behind `TypeIdSet` indices; `indices`
enumerates exactly the real columns, which is what `columns` holds). -/
structure Archetype where
  entities : List Nat
  columns : List Column

/-- The archetype's component id set, in index order (`Archetype::ids`). -/
def Archetype.ids (a : Archetype) : List Nat := a.columns.map (·.id)

/-- `TypeIdSet::contains_id` through the archetype (`Archetype::contains_id`). -/
def Archetype.containsId (a : Archetype) (t : Nat) : Bool := a.ids.contains t

/-- `TypeIdSet::len` (one dense index per real column). -/
def Archetype.setLen (a : Archetype) : Nat := a.columns.length

/-- `Archetype::len` — number of entities. -/
def Archetype.len (a : Archetype) : Nat := a.entities.length

/-- Column lookup by `TypeId` (`set.get(id)` followed by `components[idx]`). -/
def Archetype.findCol (a : Archetype) (t : Nat) : Option Column :=
  a.columns.find? (fun c => c.id == t)

/-- `Vec::swap_remove(i)`: replace element `i` with the last element and
pop the last. -/
def swapRemove (l : List Nat) (i : Nat) : List Nat :=
  (l.set i (l.getD (l.length - 1) 0)).dropLast

/-! ### Version-stamping writes (`Archetype::write_one` / `write_bundle`)

`write_one`/`write_bundle` stamp `version`, `chunk_versions[chunk_idx]`
and `entity_versions[entity_idx]` with `epoch` and deposit the value at
the row.  The `occupied` flag only selects `set_one` (drop old, then
move) versus a raw copy; with values abstracted both are the same value
update, so it is not modelled. -/

/-- Effect of `write_one`/one `bundle.put` callback on the addressed column. -/
def writeOneCol (c : Column) (idx v epoch : Nat) : Column :=
  { c with
    version := epoch
    chunkV := Function.update c.chunkV (chunkIdx idx) epoch
    entityV := Function.update c.entityV idx epoch
    values := Function.update c.values idx v }

/-- `Archetype::write_one`: look the column up by id and stamp it. -/
def Archetype.writeOne (a : Archetype) (t idx v epoch : Nat) : Archetype :=
  { a with columns := a.columns.map (fun c => if c.id = t then writeOneCol c idx v epoch else c) }

/-- A dynamic bundle: the `(TypeId, value)` pairs `bundle.put` feeds to the
callback, in `put` order. -/
def Bundle := List (Nat × Nat)

/-- `Archetype::write_bundle`: `bundle.put` invokes the callback once per
component, each invocation stamping its column at `entity_idx`. -/
def Archetype.writeBundle (a : Archetype) (idx : Nat) (b : Bundle) (epoch : Nat) : Archetype :=
  b.foldl (fun acc p => acc.writeOne p.1 idx p.2 epoch) a

/-! ### Spawn / set / despawn -/

/-- `Archetype::spawn`: write the bundle at row `len`, then push the entity. -/
def Archetype.spawn (a : Archetype) (eid : Nat) (b : Bundle) (epoch : Nat) : Archetype :=
  let a1 := a.writeBundle a.entities.length b epoch
  { a1 with entities := a1.entities ++ [eid] }

/-- `Archetype::set` (via `write_one` with `occupied = true`). -/
def Archetype.set (a : Archetype) (t idx v epoch : Nat) : Archetype :=
  a.writeOne t idx v epoch

/-- `Archetype::set_bundle` (via `write_bundle` with `occupied = _ => true`). -/
def Archetype.setBundle (a : Archetype) (idx : Nat) (b : Bundle) (epoch : Nat) : Archetype :=
  a.writeBundle idx b epoch

/-- The per-column swap-remove step shared by `despawn_unchecked` and
`relocate_components`: when the removed row is not the last, the last
row's `entity_version` is propagated into the removed row and (by max)
into the removed row's chunk version, and the last row's bytes are copied
into the removed row.  (The source's `debug_assertions`-only zeroing of
the trailing `entity_version` is release-mode behaviour here: absent.) -/
def swapRemoveCol (c : Column) (idx last : Nat) : Column :=
  if idx ≠ last then
    { c with
      chunkV := Function.update c.chunkV (chunkIdx idx)
        (if c.chunkV (chunkIdx idx) < c.entityV last then c.entityV last
        else c.chunkV (chunkIdx idx))
      entityV := Function.update c.entityV idx (c.entityV last)
      values := Function.update c.values idx (c.values last) }
  else c

/-- `Archetype::despawn_unchecked`: per-column drop + swap-remove, then
entity-id swap-remove; returns `Some(entities[idx].idx)` — the id of the
entity that took the vacated row — unless the removed row was the last. -/
def Archetype.despawn (a : Archetype) (idx : Nat) : Archetype × Option Nat :=
  let last := a.entities.length - 1
  let cols := a.columns.map (fun c => swapRemoveCol c idx last)
  let ents := swapRemove a.entities idx
  (⟨ents, cols⟩, if idx ≠ last then some (ents.getD idx 0) else none)

/-! ### Relocation (`Archetype::relocate_components`) -/

/-- Destination-side effect of one relocation iteration on the matching
destination column: with `e` the source row's `entity_version`, raise the
destination `version` and destination chunk version to `max(·, e)`, set
the destination row's `entity_version` to `e`, and byte-copy the value. -/
def relocCol (sc dc : Column) (srcIdx dstIdx : Nat) : Column :=
  { dc with
    version := if dc.version < sc.entityV srcIdx then sc.entityV srcIdx else dc.version
    chunkV := Function.update dc.chunkV (chunkIdx dstIdx)
      (if dc.chunkV (chunkIdx dstIdx) < sc.entityV srcIdx then sc.entityV srcIdx
      else dc.chunkV (chunkIdx dstIdx))
    entityV := Function.update dc.entityV dstIdx (sc.entityV srcIdx)
    values := Function.update dc.values dstIdx (sc.values srcIdx) }

/-- Destination archetype after the relocation loop: every source column
in index order writes into the destination column of the same id (the
`missing` handler touches no destination state). -/
def relocateDst (src dst : Archetype) (srcIdx dstIdx : Nat) : Archetype :=
  { dst with
    columns := src.columns.foldl
      (fun cols sc => cols.map (fun dc => if dc.id = sc.id then relocCol sc dc srcIdx dstIdx else dc))
      dst.columns }

/-- Source archetype columns after the relocation loop: each source column
gets the swap-remove treatment of the vacated row (the `missing` handler
— drop in place or move out — does not change modelled column state). -/
def relocateSrcCols (a : Archetype) (srcIdx : Nat) : Archetype :=
  let last := a.entities.length - 1
  { a with columns := a.columns.map (fun c => swapRemoveCol c srcIdx last) }

/-- The moved-entity hint every migration returns:
`Some(entities[src_idx].idx)` after the swap-remove, unless the removed
row was the last. -/
def movedHint (ents : List Nat) (srcIdx : Nat) : Option Nat :=
  if srcIdx ≠ ents.length - 1 then some ((swapRemove ents srcIdx).getD srcIdx 0) else none

/-- `Archetype::insert_bundle`: relocate, deposit the bundle at the new
destination row stamped with `epoch`, swap-remove the source entity and
push it onto the destination. Returns `(src', dst', dst_row, moved)`. -/
def Archetype.insertBundle (src dst : Archetype) (srcIdx : Nat) (b : Bundle) (epoch : Nat) :
    Archetype × Archetype × Nat × Option Nat :=
  let dstIdx := dst.entities.length
  let dst1 := relocateDst src dst srcIdx dstIdx
  let dst2 := dst1.writeBundle dstIdx b epoch
  let entity := src.entities.getD srcIdx 0
  let src1 := relocateSrcCols src srcIdx
  let src2 := { src1 with entities := swapRemove src.entities srcIdx }
  let dst3 := { dst2 with entities := dst2.entities ++ [entity] }
  (src2, dst3, dstIdx, movedHint src.entities srcIdx)

/-- `Archetype::insert`: relocate, `write_one` the single new component at
the new destination row stamped with `epoch`. -/
def Archetype.insert (src dst : Archetype) (srcIdx t v epoch : Nat) :
    Archetype × Archetype × Nat × Option Nat :=
  let dstIdx := dst.entities.length
  let dst1 := relocateDst src dst srcIdx dstIdx
  let dst2 := dst1.writeOne t dstIdx v epoch
  let entity := src.entities.getD srcIdx 0
  let src1 := relocateSrcCols src srcIdx
  let src2 := { src1 with entities := swapRemove src.entities srcIdx }
  let dst3 := { dst2 with entities := dst2.entities ++ [entity] }
  (src2, dst3, dstIdx, movedHint src.entities srcIdx)

/-- `Archetype::remove`: relocate with the missing handler copying the
removed component out to the caller; returns it as the last component. -/
def Archetype.remove (src dst : Archetype) (srcIdx t : Nat) :
    Archetype × Archetype × Nat × Option Nat × Nat :=
  let dstIdx := dst.entities.length
  let dst1 := relocateDst src dst srcIdx dstIdx
  let value := ((src.findCol t).getD dummyColumn).values srcIdx
  let entity := src.entities.getD srcIdx 0
  let src1 := relocateSrcCols src srcIdx
  let src2 := { src1 with entities := swapRemove src.entities srcIdx }
  let dst3 := { dst1 with entities := dst1.entities ++ [entity] }
  (src2, dst3, dstIdx, movedHint src.entities srcIdx, value)

/-- `Archetype::drop_bundle`: relocate with the missing handler dropping
in place (a no-op on modelled state). -/
def Archetype.dropBundle (src dst : Archetype) (srcIdx : Nat) :
    Archetype × Archetype × Nat × Option Nat :=
  let dstIdx := dst.entities.length
  let dst1 := relocateDst src dst srcIdx dstIdx
  let entity := src.entities.getD srcIdx 0
  let src1 := relocateSrcCols src srcIdx
  let src2 := { src1 with entities := swapRemove src.entities srcIdx }
  let dst3 := { dst1 with entities := dst1.entities ++ [entity] }
  (src2, dst3, dstIdx, movedHint src.entities srcIdx)

/-! ## `Archetype::matches` (`src/archetype.rs` lines 387-409)

The supplied ids come as an iterator; it is modelled as its element list
together with the `(lower, upper)` size hint it reports.  Rust iterators
may report any hint; honesty (`lower ≤ length` and `length ≤ upper`) is a
hypothesis of the theorems that need it. -/

/-- An `Iterator<Item = TypeId>` with its `size_hint()`. -/
structure IdIter where
  elems : List Nat
  hintLo : Nat
  hintHi : Option Nat

/-- The `try_fold` scan of `matches`: count elements as long as each is
contained in the archetype's set, failing on the first one that is not. -/
def tryCount (a : Archetype) : List Nat → Nat → Option Nat
  | [], n => some n
  | x :: xs, n => if a.containsId x then tryCount a xs (n + 1) else none

/-- `Archetype::matches`, including the size-hint guards:
`(l, None)` scans when `l ≤ set.len()`; `(l, Some(u))` scans when
`l ≤ set.len() && u >= set.len()`; anything else is `false`; a scan
matches when the count equals `set.len()`. -/
def Archetype.matches (a : Archetype) (it : IdIter) : Bool :=
  match it.hintHi with
  | none => if it.hintLo ≤ a.setLen then tryCount a it.elems 0 == some a.setLen else false
  | some u =>
    if it.hintLo ≤ a.setLen ∧ a.setLen ≤ u then tryCount a it.elems 0 == some a.setLen
    else false

/-- What C6 calls "the supplied ids are exactly the archetype's set":
every supplied id in the set, no duplicates supplied, every set id
supplied. -/
def ExactIds (elems ids : List Nat) : Prop :=
  elems.Nodup ∧ (∀ x ∈ elems, x ∈ ids) ∧ ∀ x ∈ ids, x ∈ elems

instance (elems ids : List Nat) : Decidable (ExactIds elems ids) := by
  unfold ExactIds; infer_instance

/-! ## Query algebra (`src/query/mod.rs`, `read.rs`, `write.rs`)

Only the leaf queries the claim quantifies over (`&T` and `&mut T`) are
modelled; `T` is its `TypeId`. -/

/-- `Access`. -/
inductive Access where
  | none
  | shared
  | mutable
deriving DecidableEq, Repr

/-- `merge_access`. -/
def mergeAccess : Access → Access → Access
  | Access.none, rhs => rhs
  | lhs, Access.none => lhs
  | Access.shared, Access.shared => Access.shared
  | _, _ => Access.mutable

/-- A leaf element query of a tuple query: `&T` or `&mut T`. -/
inductive LeafQ where
  | rd (t : Nat)
  | wr (t : Nat)
deriving DecidableEq, Repr

/-- `Query::access` of a leaf: `&T` answers `Shared` on its own type,
`&mut T` answers `Mutable`, `None` otherwise. -/
def LeafQ.access : LeafQ → Nat → Access
  | LeafQ.rd t, ty => if ty = t then Access.shared else Access.none
  | LeafQ.wr t, ty => if ty = t then Access.mutable else Access.none

/-- `Query::access` of a tuple: the in-order `merge_access` fold. -/
def tupleAccess (qs : List LeafQ) (ty : Nat) : Access :=
  qs.foldl (fun acc q => mergeAccess acc (q.access ty)) Access.none

/-- `allowed_with` of a leaf against an opposing access function
(`&T`: opposing access to `T` must be `None | Shared`;
`&mut T`: opposing access to `T` must be `None`). -/
def LeafQ.allowedWithAcc : LeafQ → (Nat → Access) → Bool
  | LeafQ.rd t, acc => acc t == Access.none || acc t == Access.shared
  | LeafQ.wr t, acc => acc t == Access.none

/-- `allowed_with` between two leaf queries. -/
def LeafQ.allowedWith (l r : LeafQ) : Bool :=
  l.allowedWithAcc (fun ty => r.access ty)

/-- The `QueryAllowed` fold of the tuple `is_valid`: the `BitOr` chain
`QueryAllowed::<A> | QueryAllowed::<B> | ...` checks each new element's
`allowed_with` against the accumulated tuple of all earlier elements
(whose access is their merged access). -/
def isValidGo (acc : Nat → Access) : List LeafQ → Bool
  | [] => true
  | q :: qs =>
    q.allowedWithAcc acc && isValidGo (fun ty => mergeAccess (acc ty) (q.access ty)) qs

/-- `Query::is_valid` for a tuple of leaf queries (the unit tuple is valid). -/
def isValid : List LeafQ → Bool
  | [] => true
  | q :: qs => isValidGo (fun ty => q.access ty) qs

/-! ## `Modified<...>::fetch` (`src/query/modified.rs`)

The fetch values hold raw pointers that are meaningless in the model;
what matters for the claims is whether `fetch` returns `Some` and how it
updates the column `version`.  Each fetch is modelled as the resulting
archetype (for the mutating variants, with the column version stamped to
`epoch`), `none` when the source returns `None`. -/

/-- Stamp the version of the column with id `t` to `epoch`
(`*data.version.get() = epoch`). -/
def Archetype.stampVersion (a : Archetype) (t epoch : Nat) : Archetype :=
  { a with columns := a.columns.map (fun c => if c.id = t then { c with version := epoch } else c) }

/-- `<Modified<&T> as Query>::fetch`: `Some` iff the column exists; no
version check, no write. -/
def modifiedReadFetch (a : Archetype) (t _tracks _epoch : Nat) : Option Archetype :=
  match a.findCol t with
  | none => none
  | some _ => some a

/-- `<Modified<&mut T> as Query>::fetch`: `Some` iff the column exists;
stamps the column version to `epoch`; no version check. -/
def modifiedWriteFetch (a : Archetype) (t _tracks epoch : Nat) : Option Archetype :=
  match a.findCol t with
  | none => none
  | some _ => some (a.stampVersion t epoch)

/-- `<Modified<Alt<T>> as Query>::fetch`: `None` when the column is
missing or `*data.version.get() < tracks`; otherwise stamps the column
version to `epoch`. -/
def modifiedAltFetch (a : Archetype) (t tracks epoch : Nat) : Option Archetype :=
  match a.findCol t with
  | none => none
  | some c => if c.version < tracks then none else some (a.stampVersion t epoch)

/-! ## `QueryTrackedIter::next` row walk (`src/query/mod.rs` lines 554-601)

One archetype's pass of `QueryTrackedIter::next`, specialised to a
non-mutating fetch (so `visit_chunk` bookkeeping changes no state and
does not influence which rows are yielded).  `start`/`stop` are the live
`Range<usize>` of row indices.  The source at a chunk boundary with
`skip_chunk(chunk) == true` executes `self.indices.nth(CHUNK_LEN_USIZE - 1)`
*after* `next()` already consumed the boundary row: `next()` leaves
`start = idx + 1` and `Range::nth(255)` consumes 256 further elements,
leaving `start = idx + 257` (clamped to `stop`).  Rows failing
`skip_item` are yielded.  `fuel` is an upper bound on loop iterations
(each iteration strictly advances `start`), kept structural so the
function evaluates by `decide`/`rfl`. -/
def trackedRowsAux (sc si : Nat → Bool) : Nat → Nat → Nat → List Nat
  | 0, _, _ => []
  | fuel + 1, start, stop =>
    if start < stop then
      if start % CHUNK_LEN == 0 && sc (chunkIdx start) then
        trackedRowsAux sc si fuel (min (start + 1 + CHUNK_LEN) stop) stop
      else if si start then
        trackedRowsAux sc si fuel (start + 1) stop
      else
        start :: trackedRowsAux sc si fuel (start + 1) stop
    else []

/-- Rows yielded by `QueryTrackedIter::next` over rows `0..len` of one
archetype, given the fetch's `skip_chunk` and `skip_item`. -/
def trackedRows (sc si : Nat → Bool) (len : Nat) : List Nat :=
  trackedRowsAux sc si len 0 len

/-- The walk the spec prescribes ("if `skip_chunk(chunk)` returns true,
advance by a full 256 rows"): after skipping the chunk of boundary row
`idx`, the next row considered is `idx + CHUNK_LEN`. -/
def trackedRowsSpecAux (sc si : Nat → Bool) : Nat → Nat → Nat → List Nat
  | 0, _, _ => []
  | fuel + 1, start, stop =>
    if start < stop then
      if start % CHUNK_LEN == 0 && sc (chunkIdx start) then
        trackedRowsSpecAux sc si fuel (min (start + CHUNK_LEN) stop) stop
      else if si start then
        trackedRowsSpecAux sc si fuel (start + 1) stop
      else
        start :: trackedRowsSpecAux sc si fuel (start + 1) stop
    else []

/-- Rows yielded by the spec-mandated walk over `0..len`. -/
def trackedRowsSpec (sc si : Nat → Bool) (len : Nat) : List Nat :=
  trackedRowsSpecAux sc si len 0 len

/-!
# Helper lemmas
-/

theorem tryCount_eq_some (a : Archetype) (xs : List Nat) (n m : Nat) :
    tryCount a xs n = some m ↔ (∀ x ∈ xs, a.containsId x = true) ∧ m = n + xs.length := by
  induction xs generalizing n with
  | nil =>
    simp only [tryCount, Option.some.injEq, List.not_mem_nil, false_implies, implies_true,
      true_and, List.length_nil, Nat.add_zero]
    exact eq_comm
  | cons x xs ih =>
    simp only [tryCount, List.mem_cons, List.length_cons]
    by_cases hx : a.containsId x = true
    · rw [if_pos hx, ih]
      constructor
      · rintro ⟨h1, h2⟩
        refine ⟨fun y hy => ?_, by omega⟩
        rcases hy with rfl | hy
        · exact hx
        · exact h1 y hy
      · rintro ⟨h1, h2⟩
        exact ⟨fun y hy => h1 y (Or.inr hy), by omega⟩
    · rw [if_neg hx]
      constructor
      · intro h; exact absurd h (by simp)
      · rintro ⟨h1, -⟩
        exact absurd (h1 x (Or.inl rfl)) hx

theorem Archetype.containsId_iff (a : Archetype) (x : Nat) :
    a.containsId x = true ↔ x ∈ a.ids := by
  simp [Archetype.containsId]

theorem Archetype.setLen_eq_length_ids (a : Archetype) : a.setLen = a.ids.length := by
  simp [Archetype.setLen, Archetype.ids]

/-- The scan of `matches` succeeds with count `set.len` exactly when every
supplied id is contained and the number supplied equals `set.len`. -/
theorem matches_scan_iff (a : Archetype) (elems : List Nat) :
    (tryCount a elems 0 == some a.setLen) = true ↔
      (∀ x ∈ elems, x ∈ a.ids) ∧ elems.length = a.setLen := by
  rw [beq_iff_eq, tryCount_eq_some]
  constructor
  · rintro ⟨h1, h2⟩
    exact ⟨fun x hx => (a.containsId_iff x).mp (h1 x hx), by omega⟩
  · rintro ⟨h1, h2⟩
    exact ⟨fun x hx => (a.containsId_iff x).mpr (h1 x hx), by omega⟩

theorem getD_dropLast_of_lt (l : List Nat) (i : Nat) (h : i < l.length - 1) :
    l.dropLast.getD i 0 = l.getD i 0 := by
  simp [List.getD]
  rw [List.getElem?_eq_getElem (by simpa using h), List.getElem?_eq_getElem (by omega)]
  simp [List.getElem_dropLast]

theorem getD_set_self (l : List Nat) (i v : Nat) (h : i < l.length) :
    (l.set i v).getD i 0 = v := by
  simp [List.getD, List.getElem?_set, h]

/-- Swap-removing a non-last element leaves the old last element at the
removed position. -/
theorem getD_swapRemove_lt (l : List Nat) (i : Nat) (h : i < l.length - 1) :
    (swapRemove l i).getD i 0 = l.getD (l.length - 1) 0 := by
  unfold swapRemove
  rw [getD_dropLast_of_lt _ _ (by simpa using h), getD_set_self _ _ _ (by omega)]

theorem length_swapRemove (l : List Nat) (i : Nat) :
    (swapRemove l i).length = l.length - 1 := by
  simp [swapRemove]

/-- `getD` through `map` on column lists, within bounds. -/
theorem getD_map_col (l : List Column) (f : Column → Column) (k : Nat) (h : k < l.length) :
    (l.map f).getD k dummyColumn = f (l.getD k dummyColumn) := by
  simp [List.getD, List.getElem?_map, List.getElem?_eq_getElem, h]

/-- A fold of per-element maps over a list equals the map of per-element
folds. -/
theorem foldl_map_comm {α β : Type} (g : α → β → β) (xs : List α) (cols : List β) :
    xs.foldl (fun cs x => cs.map (fun c => g x c)) cols
      = cols.map (fun c => xs.foldl (fun c x => g x c) c) := by
  induction xs generalizing cols with
  | nil => simp
  | cons x xs ih =>
    simp only [List.foldl_cons]
    rw [ih, List.map_map]
    rfl

/-- The cumulative effect of `write_bundle` on one column: every bundle
entry addressed to this column stamps and writes it in `put` order. -/
def bundleWriteCol (c : Column) (idx : Nat) (b : Bundle) (epoch : Nat) : Column :=
  b.foldl (fun c p => if c.id = p.1 then writeOneCol c idx p.2 epoch else c) c

/-- The cumulative effect of the relocation loop on one destination
column: every source column of matching id applies `relocCol` in order. -/
def relocFoldCol (scs : List Column) (dc : Column) (srcIdx dstIdx : Nat) : Column :=
  scs.foldl (fun dc sc => if dc.id = sc.id then relocCol sc dc srcIdx dstIdx else dc) dc

theorem bundleWriteCol_cons (c : Column) (idx : Nat) (p : Nat × Nat) (b : Bundle) (epoch : Nat) :
    bundleWriteCol c idx (p :: b) epoch =
      bundleWriteCol (if c.id = p.1 then writeOneCol c idx p.2 epoch else c) idx b epoch := rfl

theorem relocFoldCol_cons (sc : Column) (scs : List Column) (dc : Column) (si di : Nat) :
    relocFoldCol (sc :: scs) dc si di =
      relocFoldCol scs (if dc.id = sc.id then relocCol sc dc si di else dc) si di := rfl

theorem writeOneCol_id (c : Column) (idx v epoch : Nat) :
    (writeOneCol c idx v epoch).id = c.id := rfl

theorem relocCol_id (sc dc : Column) (si di : Nat) :
    (relocCol sc dc si di).id = dc.id := rfl

theorem bundleWriteCol_id (c : Column) (idx : Nat) (b : Bundle) (epoch : Nat) :
    (bundleWriteCol c idx b epoch).id = c.id := by
  induction b generalizing c with
  | nil => rfl
  | cons p b ih =>
    rw [bundleWriteCol_cons]
    by_cases h : c.id = p.1
    · rw [if_pos h, ih]
      exact h.symm ▸ rfl
    · rw [if_neg h]
      exact ih c

theorem relocFoldCol_id (scs : List Column) (dc : Column) (si di : Nat) :
    (relocFoldCol scs dc si di).id = dc.id := by
  induction scs generalizing dc with
  | nil => rfl
  | cons sc scs ih =>
    rw [relocFoldCol_cons]
    by_cases h : dc.id = sc.id
    · rw [if_pos h, ih]
      rfl
    · rw [if_neg h]
      exact ih dc

theorem bundleWriteCol_not_mem (c : Column) (idx : Nat) (b : Bundle) (epoch : Nat)
    (h : c.id ∉ b.map Prod.fst) :
    bundleWriteCol c idx b epoch = c := by
  induction b with
  | nil => rfl
  | cons p b ih =>
    simp only [List.map_cons, List.mem_cons] at h
    push_neg at h
    rw [bundleWriteCol_cons, if_neg h.1]
    exact ih h.2

/-- Stamped state at a row: `version`, the row's chunk version and the
row's entity version all equal `epoch`. -/
def StampedAt (c : Column) (idx epoch : Nat) : Prop :=
  c.version = epoch ∧ c.chunkV (chunkIdx idx) = epoch ∧ c.entityV idx = epoch

theorem writeOneCol_stamped (c : Column) (idx v epoch : Nat) :
    StampedAt (writeOneCol c idx v epoch) idx epoch := by
  refine ⟨rfl, ?_, ?_⟩ <;> simp [writeOneCol]

theorem bundleWriteCol_stamped_preserve (c : Column) (idx : Nat) (b : Bundle) (epoch : Nat)
    (h : StampedAt c idx epoch) :
    StampedAt (bundleWriteCol c idx b epoch) idx epoch := by
  induction b generalizing c with
  | nil => exact h
  | cons p b ih =>
    rw [bundleWriteCol_cons]
    by_cases hid : c.id = p.1
    · rw [if_pos hid]
      exact ih _ (writeOneCol_stamped c idx p.2 epoch)
    · rw [if_neg hid]
      exact ih c h

theorem bundleWriteCol_mem_stamped (c : Column) (idx : Nat) (b : Bundle) (epoch : Nat)
    (h : c.id ∈ b.map Prod.fst) :
    StampedAt (bundleWriteCol c idx b epoch) idx epoch := by
  induction b generalizing c with
  | nil => simp at h
  | cons p b ih =>
    rw [bundleWriteCol_cons]
    by_cases hid : c.id = p.1
    · rw [if_pos hid]
      exact bundleWriteCol_stamped_preserve _ _ _ _ (writeOneCol_stamped c idx p.2 epoch)
    · rw [if_neg hid]
      apply ih
      simp only [List.map_cons, List.mem_cons] at h
      exact h.resolve_left hid

theorem relocFoldCol_not_mem (scs : List Column) (dc : Column) (si di : Nat)
    (h : dc.id ∉ scs.map (·.id)) :
    relocFoldCol scs dc si di = dc := by
  induction scs with
  | nil => rfl
  | cons sc scs ih =>
    simp only [List.map_cons, List.mem_cons] at h
    push_neg at h
    rw [relocFoldCol_cons, if_neg h.1]
    exact ih h.2

theorem relocFoldCol_mem (scs : List Column) (dc sc : Column) (si di : Nat)
    (hnd : (scs.map (·.id)).Nodup) (hsc : sc ∈ scs) (hid : sc.id = dc.id) :
    relocFoldCol scs dc si di = relocCol sc dc si di := by
  induction scs with
  | nil => simp at hsc
  | cons sc0 scs ih =>
    simp only [List.map_cons, List.nodup_cons] at hnd
    rw [relocFoldCol_cons]
    rcases List.mem_cons.mp hsc with rfl | hmem
    · rw [if_pos hid.symm]
      apply relocFoldCol_not_mem
      rw [relocCol_id, ← hid]
      exact hnd.1
    · by_cases h0 : dc.id = sc0.id
      · exfalso
        apply hnd.1
        rw [← h0, ← hid]
        exact List.mem_map_of_mem _ hmem
      · rw [if_neg h0]
        exact ih hnd.2 hmem

theorem if_lt_eq_max (a b : Nat) : (if a < b then b else a) = max a b := by
  split <;> omega

/-- The per-column version invariant at row count `len`: every in-use
row's entity version is dominated by its chunk version, and every chunk
version is dominated by the column version (true of summarising chunks by
P1 and of untouched chunks by zero-initialisation). -/
def ColInv (c : Column) (len : Nat) : Prop :=
  (∀ i, i < len → c.entityV i ≤ c.chunkV (chunkIdx i)) ∧ (∀ k, c.chunkV k ≤ c.version)

/-- The archetype-wide invariant: `ColInv` for every real column at the
archetype's row count. -/
def ArchInv (a : Archetype) : Prop := ∀ c ∈ a.columns, ColInv c a.entities.length

theorem entityV_le_version (c : Column) (len i : Nat) (hc : ColInv c len) (hi : i < len) :
    c.entityV i ≤ c.version :=
  le_trans (hc.1 i hi) (hc.2 _)

/-- Stamping a row at an epoch dominating the column version preserves the
invariant, also when the row is the one fresh row of a grown archetype
(`hcover`: every other row counted by `lenP` was already counted by `len`). -/
theorem writeOneCol_inv (c : Column) (idx v epoch len lenP : Nat)
    (hc : ColInv c len) (hv : c.version ≤ epoch)
    (hcover : ∀ i, i < lenP → i ≠ idx → i < len) :
    ColInv (writeOneCol c idx v epoch) lenP ∧ (writeOneCol c idx v epoch).version ≤ epoch := by
  obtain ⟨ha, hb⟩ := hc
  refine ⟨⟨?_, ?_⟩, le_refl epoch⟩
  · intro i hi
    by_cases hii : i = idx
    · subst hii
      simp [writeOneCol]
    · have hilen := hcover i hi hii
      simp only [writeOneCol, Function.update_noteq hii]
      by_cases hch : chunkIdx i = chunkIdx idx
      · rw [hch, Function.update_same]
        exact le_trans (ha i hilen) (le_trans (hb _) hv)
      · rw [Function.update_noteq hch]
        exact ha i hilen
  · intro k
    simp only [writeOneCol]
    by_cases hk : k = chunkIdx idx
    · rw [hk, Function.update_same]
    · rw [Function.update_noteq hk]
      exact le_trans (hb k) hv

/-- The swap-remove step preserves the invariant at the shrunk row count. -/
theorem swapRemoveCol_inv (c : Column) (idx len : Nat)
    (hc : ColInv c len) (hidx : idx < len) :
    ColInv (swapRemoveCol c idx (len - 1)) (len - 1) := by
  obtain ⟨ha, hb⟩ := hc
  unfold swapRemoveCol
  by_cases h : idx ≠ len - 1
  · rw [if_pos h]
    have hlast : len - 1 < len := by omega
    have hle : c.entityV (len - 1) ≤ c.version := le_trans (ha _ hlast) (hb _)
    constructor
    · intro i hi
      by_cases hii : i = idx
      · subst hii
        simp only [Function.update_same, if_lt_eq_max]
        exact le_max_right _ _
      · have hil : i < len := by omega
        simp only [Function.update_noteq hii]
        by_cases hch : chunkIdx i = chunkIdx idx
        · rw [hch, Function.update_same, if_lt_eq_max]
          exact le_trans (ha i hil) (by rw [← hch]; exact le_max_left _ _)
        · rw [Function.update_noteq hch]
          exact ha i hil
    · intro k
      dsimp only
      by_cases hk : k = chunkIdx idx
      · rw [hk, Function.update_same, if_lt_eq_max]
        exact max_le (hb _) hle
      · rw [Function.update_noteq hk]
        exact hb k
  · rw [if_neg h]
    exact ⟨fun i hi => ha i (by omega), hb⟩

/-- Relocating into row `di` preserves the invariant, also when `di` is
the one fresh row of the destination's grown row count `dlenP`. -/
theorem relocCol_inv (sc dc : Column) (si di dlen dlenP : Nat)
    (hdc : ColInv dc dlen)
    (hcover : ∀ i, i < dlenP → i ≠ di → i < dlen) :
    ColInv (relocCol sc dc si di) dlenP := by
  obtain ⟨ha, hb⟩ := hdc
  constructor
  · intro i hi
    by_cases hii : i = di
    · subst hii
      simp only [relocCol, Function.update_same, if_lt_eq_max]
      exact le_max_right _ _
    · have hil := hcover i hi hii
      simp only [relocCol, Function.update_noteq hii]
      by_cases hch : chunkIdx i = chunkIdx di
      · rw [hch, Function.update_same, if_lt_eq_max]
        exact le_trans (ha i hil) (by rw [← hch]; exact le_max_left _ _)
      · rw [Function.update_noteq hch]
        exact ha i hil
  · intro k
    simp only [relocCol]
    by_cases hk : k = chunkIdx di
    · rw [hk, Function.update_same, if_lt_eq_max, if_lt_eq_max]
      exact max_le_max (hb _) (le_refl _)
    · rw [Function.update_noteq hk, if_lt_eq_max]
      exact le_trans (hb k) (le_max_left _ _)

theorem relocCol_version_le (sc dc : Column) (si di epoch : Nat)
    (h1 : dc.version ≤ epoch) (h2 : sc.entityV si ≤ epoch) :
    (relocCol sc dc si di).version ≤ epoch := by
  simp only [relocCol, if_lt_eq_max]
  exact max_le h1 h2

theorem bundleWriteCol_inv_preserve (b : Bundle) (idx epoch lenP : Nat) :
    ∀ c : Column, ColInv c lenP → c.version ≤ epoch →
      ColInv (bundleWriteCol c idx b epoch) lenP ∧
        (bundleWriteCol c idx b epoch).version ≤ epoch := by
  induction b with
  | nil => exact fun c h1 h2 => ⟨h1, h2⟩
  | cons p b ih =>
    intro c h1 h2
    rw [bundleWriteCol_cons]
    by_cases hid : c.id = p.1
    · rw [if_pos hid]
      have hw := writeOneCol_inv c idx p.2 epoch lenP lenP h1 h2 (fun i hi _ => hi)
      exact ih _ hw.1 hw.2
    · rw [if_neg hid]
      exact ih c h1 h2

theorem bundleWriteCol_inv_mem (b : Bundle) (idx epoch len lenP : Nat)
    (hcover : ∀ i, i < lenP → i ≠ idx → i < len) :
    ∀ c : Column, ColInv c len → c.version ≤ epoch → c.id ∈ b.map Prod.fst →
      ColInv (bundleWriteCol c idx b epoch) lenP ∧
        (bundleWriteCol c idx b epoch).version ≤ epoch := by
  induction b with
  | nil =>
    intro c _ _ hmem
    simp at hmem
  | cons p b ih =>
    intro c h1 h2 hmem
    rw [bundleWriteCol_cons]
    by_cases hid : c.id = p.1
    · rw [if_pos hid]
      have hw := writeOneCol_inv c idx p.2 epoch len lenP h1 h2 hcover
      exact bundleWriteCol_inv_preserve b idx epoch lenP _ hw.1 hw.2
    · rw [if_neg hid]
      apply ih c h1 h2
      simp only [List.map_cons, List.mem_cons] at hmem
      exact hmem.resolve_left hid

theorem relocFoldCol_inv_preserve (si di epoch slen dlenP : Nat) (hsi : si < slen) :
    ∀ scs : List Column, (∀ sc ∈ scs, ColInv sc slen ∧ sc.version ≤ epoch) →
    ∀ dc : Column, ColInv dc dlenP → dc.version ≤ epoch →
      ColInv (relocFoldCol scs dc si di) dlenP ∧
        (relocFoldCol scs dc si di).version ≤ epoch := by
  intro scs
  induction scs with
  | nil => exact fun _ dc h1 h2 => ⟨h1, h2⟩
  | cons sc scs ih =>
    intro hscs dc h1 h2
    have hscs2 : ∀ sc2 ∈ scs, ColInv sc2 slen ∧ sc2.version ≤ epoch :=
      fun sc2 h => hscs sc2 (List.mem_cons_of_mem _ h)
    rw [relocFoldCol_cons]
    by_cases hid : dc.id = sc.id
    · rw [if_pos hid]
      have hsc := hscs sc (List.mem_cons_self _ _)
      have he : sc.entityV si ≤ epoch :=
        le_trans (entityV_le_version sc slen si hsc.1 hsi) hsc.2
      exact ih hscs2 _ (relocCol_inv sc dc si di dlenP dlenP h1 (fun i hi _ => hi))
        (relocCol_version_le sc dc si di epoch h2 he)
    · rw [if_neg hid]
      exact ih hscs2 dc h1 h2

theorem relocFoldCol_inv_mem (si di epoch slen dlen dlenP : Nat) (hsi : si < slen)
    (hcover : ∀ i, i < dlenP → i ≠ di → i < dlen) :
    ∀ scs : List Column, (∀ sc ∈ scs, ColInv sc slen ∧ sc.version ≤ epoch) →
    ∀ dc : Column, ColInv dc dlen → dc.version ≤ epoch → dc.id ∈ scs.map (·.id) →
      ColInv (relocFoldCol scs dc si di) dlenP ∧
        (relocFoldCol scs dc si di).version ≤ epoch := by
  intro scs
  induction scs with
  | nil =>
    intro _ dc _ _ hmem
    simp at hmem
  | cons sc scs ih =>
    intro hscs dc h1 h2 hmem
    have hscs2 : ∀ sc2 ∈ scs, ColInv sc2 slen ∧ sc2.version ≤ epoch :=
      fun sc2 h => hscs sc2 (List.mem_cons_of_mem _ h)
    rw [relocFoldCol_cons]
    by_cases hid : dc.id = sc.id
    · rw [if_pos hid]
      have hsc := hscs sc (List.mem_cons_self _ _)
      have he : sc.entityV si ≤ epoch :=
        le_trans (entityV_le_version sc slen si hsc.1 hsi) hsc.2
      exact relocFoldCol_inv_preserve si di epoch slen dlenP hsi scs hscs2 _
        (relocCol_inv sc dc si di dlen dlenP h1 hcover)
        (relocCol_version_le sc dc si di epoch h2 he)
    · rw [if_neg hid]
      apply ih hscs2 dc h1 h2
      simp only [List.map_cons, List.mem_cons] at hmem
      exact hmem.resolve_left hid

theorem writeBundle_entities (a : Archetype) (idx : Nat) (b : Bundle) (epoch : Nat) :
    (a.writeBundle idx b epoch).entities = a.entities := by
  induction b generalizing a with
  | nil => rfl
  | cons p b ih => exact ih (a.writeOne p.1 idx p.2 epoch)

theorem writeBundle_columns (a : Archetype) (idx : Nat) (b : Bundle) (epoch : Nat) :
    (a.writeBundle idx b epoch).columns =
      a.columns.map (fun c => bundleWriteCol c idx b epoch) := by
  have h : ∀ (b : Bundle) (a : Archetype),
      (a.writeBundle idx b epoch).columns =
        b.foldl (fun cols p => cols.map
          (fun c => if c.id = p.1 then writeOneCol c idx p.2 epoch else c)) a.columns := by
    intro b
    induction b with
    | nil => intro a; rfl
    | cons p b ih => intro a; exact ih (a.writeOne p.1 idx p.2 epoch)
  rw [h, foldl_map_comm]
  rfl

theorem relocateDst_columns (src dst : Archetype) (si di : Nat) :
    (relocateDst src dst si di).columns =
      dst.columns.map (fun dc => relocFoldCol src.columns dc si di) := by
  unfold relocateDst relocFoldCol
  exact foldl_map_comm _ _ _

theorem relocateDst_entities (src dst : Archetype) (si di : Nat) :
    (relocateDst src dst si di).entities = dst.entities := rfl

/-- Destination columns of a migration that relocates and then deposits
bundle `b`, as a single per-column map. -/
theorem migrationDstCols (src dst : Archetype) (si : Nat) (b : Bundle) (epoch : Nat) :
    ((relocateDst src dst si dst.entities.length).writeBundle
        dst.entities.length b epoch).columns
      = dst.columns.map (fun dc =>
          bundleWriteCol (relocFoldCol src.columns dc si dst.entities.length)
            dst.entities.length b epoch) := by
  rw [writeBundle_columns, relocateDst_columns, List.map_map]
  rfl

/-!
# Theorems
-/

/-- C1: `Bundle::static_valid` is claimed to return `false` whenever the
bundle's component ids contain a duplicate.  The source loop compares only
`ids[0]` with `ids[1]`, then drops both and continues with `ids[2..]`, so
the duplicate in `(A, B, A)` (ids `[0, 1, 0]`) is missed: `static_valid`
returns `true` on a bundle whose id set contains a duplicate.  (On the
empty bundle and on pairwise-distinct two-element bundles it behaves as
claimed, also shown here.) -/
theorem claim_C1_static_valid_misses_duplicate :
    staticValid [0, 1, 0] = true ∧ ¬ ([0, 1, 0] : List Nat).Nodup ∧
    staticValid [] = true ∧ staticValid [0, 0] = false := by
  decide

/-- C2: `chunks_count` is claimed to compute `ceil(n / 256)`.  The source
expression `entities + (CHUNK_LEN_USIZE - 1) / CHUNK_LEN_USIZE` evaluates
`(CHUNK_LEN - 1) / CHUNK_LEN = 0` first, so `chunks_count n = n`:
at `n = 2` the code yields `2` while `ceil(2/256) = 1`, and `grow`
consequently reallocates `chunk_versions` whenever the capacity grows at
all (e.g. `1 → 2`), although `ceil(2/256) = ceil(1/256)`. -/
theorem claim_C2_chunks_count_precedence_bug :
    chunksCount 2 = 2 ∧ chunksCountSpec 2 = 1 ∧
    growReallocatesChunks 1 2 = true ∧ chunksCountSpec 2 = chunksCountSpec 1 := by
  decide

/-- C3: when `skip_chunk` accepts the chunk of boundary row `r`, the
tracked iterator is claimed to advance past exactly the 256 rows
`r..r+256`, resuming at the first row of the following chunk.  In the
source, `next()` has already consumed the boundary row when
`self.indices.nth(CHUNK_LEN_USIZE - 1)` consumes 256 more, so 257 rows
are consumed and the first row of the following chunk is silently
dropped.  Witnessed on an archetype of 257 rows with `skip_chunk` true
exactly on chunk 0 and `skip_item` always false: the code path yields no
rows at all, while the spec-mandated walk yields row 256. -/
theorem claim_C3_tracked_iter_skips_row_256 :
    trackedRows (fun c => c == 0) (fun _ => false) 257 = [] ∧
    trackedRowsSpec (fun c => c == 0) (fun _ => false) 257 = [256] ∧
    (fun c => c == 0) (chunkIdx 256) = false ∧
    (fun _ : Nat => false) 256 = false := by
  refine ⟨by decide, by decide, by decide, rfl⟩

/-- A column with the given id and all-zero version/value state, used for
concrete instances. -/
def zeroCol (id : Nat) : Column := ⟨id, 0, fun _ => 0, fun _ => 0, fun _ => 0⟩

/-- Concrete archetype with component id set `{0, 1}`. -/
def archC6 : Archetype := ⟨[], [zeroCol 0, zeroCol 1]⟩

/-- The duplicate-carrying id iterator `[0, 0]` with its honest size hint. -/
def iterC6 : IdIter := ⟨[0, 0], 2, some 2⟩

/-- C6 counterexample: on the archetype with id set `{0, 1}`, the supplied
ids `[0, 0]` (honest size hint `(2, Some 2)`) make `matches` return
`true`, although they are not exactly the archetype's set: the scan
counts memberships and never checks the supplied ids for duplicates, so a
duplicate can stand in for a missing id. -/
theorem claim_C6_counterexample :
    Archetype.matches archC6 iterC6 = true ∧
    ¬ ExactIds iterC6.elems archC6.ids ∧
    iterC6.hintLo ≤ iterC6.elems.length ∧ iterC6.elems.length ≤ 2 := by
  refine ⟨by decide, by decide, by decide, by decide⟩

/-- C6 amended: provided the iterator's size hint is honest and the
supplied ids are duplicate-free, `Archetype::matches` returns `true` iff
the supplied ids are exactly the archetype's component id set; the
size-hint short-circuit never changes that result.  (Without the
duplicate-freedom proviso the claimed equivalence fails, see the
counterexample.) -/
theorem claim_C6_matches_exact_of_nodup (a : Archetype) (it : IdIter)
    (hlo : it.hintLo ≤ it.elems.length)
    (hhi : ∀ u ∈ it.hintHi, it.elems.length ≤ u)
    (hnd : it.elems.Nodup) (hna : a.ids.Nodup) :
    a.matches it = true ↔ ExactIds it.elems a.ids := by
  obtain ⟨elems, lo, hi⟩ := it
  simp only at hlo hhi ⊢
  have hmain : Archetype.matches a ⟨elems, lo, hi⟩ = true ↔
      (∀ x ∈ elems, x ∈ a.ids) ∧ elems.length = a.setLen := by
    unfold Archetype.matches
    cases hi with
    | none =>
      simp only
      by_cases hg : lo ≤ a.setLen
      · rw [if_pos hg]; exact matches_scan_iff a elems
      · rw [if_neg hg]
        simp only [Bool.false_eq_true, false_iff, not_and]
        intro _ hlen
        exact hg (by omega)
    | some u =>
      simp only
      by_cases hg : lo ≤ a.setLen ∧ a.setLen ≤ u
      · rw [if_pos hg]; exact matches_scan_iff a elems
      · rw [if_neg hg]
        simp only [Bool.false_eq_true, false_iff, not_and]
        intro _ hlen
        have hu : elems.length ≤ u := hhi u rfl
        exact hg ⟨by omega, by omega⟩
  rw [hmain]
  constructor
  · rintro ⟨hsub, hlen⟩
    refine ⟨hnd, hsub, ?_⟩
    have hsp : List.Subperm elems a.ids := List.subperm_of_subset hnd hsub
    have hp := hsp.perm_of_length_le (by rw [a.setLen_eq_length_ids] at hlen; omega)
    intro x hx
    exact hp.mem_iff.mpr hx
  · rintro ⟨h1, h2, h3⟩
    have hsp : List.Subperm elems a.ids := List.subperm_of_subset h1 h2
    have hsp2 : List.Subperm a.ids elems := List.subperm_of_subset hna h3
    have hl1 := hsp.length_le
    have hl2 := hsp2.length_le
    exact ⟨h2, by rw [a.setLen_eq_length_ids]; omega⟩

/-- `allowed_with` against a merged access factors into the two separate
checks: the merged access to a type is harmless exactly when both merged
operands are. -/
theorem allowedWithAcc_merge (q : LeafQ) (acc : Nat → Access) (p : LeafQ) :
    q.allowedWithAcc (fun ty => mergeAccess (acc ty) (p.access ty)) =
      (q.allowedWithAcc acc && q.allowedWith p) := by
  cases q with
  | rd t =>
    simp only [LeafQ.allowedWithAcc, LeafQ.allowedWith]
    cases h1 : acc t <;> cases h2 : p.access t <;> simp [mergeAccess, h1, h2]
  | wr t =>
    simp only [LeafQ.allowedWithAcc, LeafQ.allowedWith]
    cases h1 : acc t <;> cases h2 : p.access t <;> simp [mergeAccess, h1, h2]

/-- `allowed_with` is symmetric on leaf queries. -/
theorem allowedWith_symm (a b : LeafQ) : a.allowedWith b = b.allowedWith a := by
  cases a <;> cases b <;> rename_i t u <;> by_cases h : t = u <;>
    simp only [LeafQ.allowedWith, LeafQ.allowedWithAcc, LeafQ.access, h, eq_comm] <;> rfl

/-- The `QueryAllowed` fold with accumulated access `acc` succeeds iff
every remaining element is allowed against `acc` and every unordered pair
of remaining elements is mutually allowed. -/
theorem isValidGo_iff (qs : List LeafQ) (acc : Nat → Access) :
    isValidGo acc qs = true ↔
      (∀ q ∈ qs, q.allowedWithAcc acc = true) ∧
        qs.Pairwise (fun a b => b.allowedWith a = true) := by
  induction qs generalizing acc with
  | nil => simp [isValidGo]
  | cons q qs ih =>
    simp only [isValidGo, Bool.and_eq_true, ih, List.mem_cons, List.pairwise_cons]
    constructor
    · rintro ⟨hq, hall, hpw⟩
      have hall2 : ∀ r ∈ qs, r.allowedWithAcc acc = true ∧ r.allowedWith q = true := by
        intro r hr
        have h2 := hall r hr
        rw [allowedWithAcc_merge, Bool.and_eq_true] at h2
        exact h2
      refine ⟨fun r hr => ?_, fun b hb => (hall2 b hb).2, hpw⟩
      rcases hr with rfl | hr
      · exact hq
      · exact (hall2 r hr).1
    · rintro ⟨hall, hhead, hpw⟩
      refine ⟨hall q (Or.inl rfl), fun r hr => ?_, hpw⟩
      rw [allowedWithAcc_merge, Bool.and_eq_true]
      exact ⟨hall r (Or.inr hr), hhead r hr⟩

/-- `is_valid` of a tuple of leaf queries holds iff every unordered pair
of element queries is mutually `allowed_with`. -/
theorem isValid_iff_pairwise (qs : List LeafQ) :
    isValid qs = true ↔ qs.Pairwise (fun a b => a.allowedWith b = true) := by
  have main : isValid qs = true ↔ qs.Pairwise (fun a b => b.allowedWith a = true) := by
    cases qs with
    | nil => simp [isValid]
    | cons p qs =>
      rw [show isValid (p :: qs) = isValidGo (fun ty => p.access ty) qs from rfl,
        isValidGo_iff, List.pairwise_cons]
      constructor
      · rintro ⟨hall, hpw⟩
        exact ⟨fun b hb => hall b hb, hpw⟩
      · rintro ⟨hhead, hpw⟩
        exact ⟨fun q hq => hhead q hq, hpw⟩
  rw [main]
  constructor <;>
    exact fun h => h.imp (fun hab => by rw [allowedWith_symm]; exact hab)

/-- C7: the static alias check on query tuples: `(&mut T, &T)` is invalid,
`(&T, &T)` is valid, `(&mut T, &mut U)` is valid for distinct `T ≠ U`,
and in general a tuple is valid iff every unordered pair of its element
queries satisfies `allowed_with`. -/
theorem claim_C7_is_valid (t u : Nat) (h : t ≠ u) (qs : List LeafQ) :
    isValid [LeafQ.wr t, LeafQ.rd t] = false ∧
    isValid [LeafQ.rd t, LeafQ.rd t] = true ∧
    isValid [LeafQ.wr t, LeafQ.wr u] = true ∧
    (isValid qs = true ↔ qs.Pairwise (fun a b => a.allowedWith b = true)) := by
  refine ⟨?_, ?_, ?_, isValid_iff_pairwise qs⟩
  · simp [isValid, isValidGo, LeafQ.allowedWithAcc, LeafQ.access]
  · simp [isValid, isValidGo, LeafQ.allowedWithAcc, LeafQ.access]
  · simp [isValid, isValidGo, LeafQ.allowedWithAcc, LeafQ.access, h, Ne.symm h]

/-- C7 witness at `T = 0`, `U = 1` and the tuple `(&0, &mut 1)`. -/
theorem claim_C7_witness :
    isValid [LeafQ.wr 0, LeafQ.rd 0] = false ∧
    isValid [LeafQ.rd 0, LeafQ.rd 0] = true ∧
    isValid [LeafQ.wr 0, LeafQ.wr 1] = true ∧
    (isValid [LeafQ.rd 0, LeafQ.wr 1] = true ↔
      ([LeafQ.rd 0, LeafQ.wr 1] : List LeafQ).Pairwise (fun a b => a.allowedWith b = true)) :=
  claim_C7_is_valid 0 1 (by decide) [LeafQ.rd 0, LeafQ.wr 1]

/-- C6 amended-claim witness: on the archetype `{0, 1}` and the exact,
duplicate-free id list `[1, 0]` with honest hint `(2, Some 2)`, `matches`
returns `true`. -/
theorem claim_C6_witness :
    Archetype.matches archC6 ⟨[1, 0], 2, some 2⟩ = true := by
  rw [claim_C6_matches_exact_of_nodup archC6 ⟨[1, 0], 2, some 2⟩ (by decide)
    (by intro u hu; cases hu; decide) (by decide) (by decide)]
  decide

/-- Concrete three-entity archetype with entity ids `10, 11, 12`. -/
def archC8 : Archetype := ⟨[10, 11, 12], []⟩

/-- C8 counterexample: despawning row 0 of an archetype holding entities
with ids `[10, 11, 12]` returns `Some 12` — the *id* of the entity that
was moved into the vacated row (the source returns
`self.entities[entity_idx].idx` after the swap-remove) — which is neither
the vacated row index `0` nor the moved entity's former row index `2`,
so the return value is not a row index as claimed. -/
theorem claim_C8_counterexample :
    (archC8.despawn 0).2 = some 12 ∧ (12 : Nat) ≠ 0 ∧ (12 : Nat) ≠ 2 ∧
    archC8.entities.length = 3 := by
  refine ⟨by decide, by decide, by decide, by decide⟩

/-- C8 amended: `despawn(row)` returns none iff the removed row was the
last row (in particular for the only entity); otherwise it returns the
**entity id** of the entity that was moved into the vacated row (the last
row's entity), and despawning the last row copies no component values
(all columns are untouched). -/
theorem claim_C8_despawn_amended (a : Archetype) (idx : Nat)
    (h : idx < a.entities.length) :
    ((a.despawn idx).2 = none ↔ idx = a.entities.length - 1) ∧
    (idx ≠ a.entities.length - 1 →
      (a.despawn idx).2 = some (a.entities.getD (a.entities.length - 1) 0)) ∧
    (a.despawn (a.entities.length - 1)).1.columns = a.columns := by
  refine ⟨?_, ?_, ?_⟩
  · by_cases hl : idx = a.entities.length - 1 <;> simp [Archetype.despawn, hl]
  · intro hne
    simp only [Archetype.despawn, hne, ne_eq, not_false_eq_true, if_true]
    rw [getD_swapRemove_lt _ _ (by omega)]
  · simp [Archetype.despawn, swapRemoveCol]

/-- C8 amended-claim witness at row 0 of the three-entity archetype. -/
theorem claim_C8_witness :
    ((archC8.despawn 0).2 = none ↔ 0 = archC8.entities.length - 1) ∧
    (0 ≠ archC8.entities.length - 1 →
      (archC8.despawn 0).2 = some (archC8.entities.getD (archC8.entities.length - 1) 0)) ∧
    (archC8.despawn (archC8.entities.length - 1)).1.columns = archC8.columns :=
  claim_C8_despawn_amended archC8 0 (by decide)

/-- Everything C9 promises about `set<T>(row, value, epoch)`: the `T`
column gets `version`, the row's chunk version and the row's entity
version stamped to `epoch` and the value replaced, all its other slots
untouched; every other column, and the entity id array, are unchanged. -/
def C9Post (a : Archetype) (t idx v epoch : Nat) : Prop :=
  (a.set t idx v epoch).entities = a.entities ∧
  (a.set t idx v epoch).columns.length = a.columns.length ∧
  ∀ k, k < a.columns.length →
    ((a.columns.getD k dummyColumn).id ≠ t →
      (a.set t idx v epoch).columns.getD k dummyColumn = a.columns.getD k dummyColumn) ∧
    ((a.columns.getD k dummyColumn).id = t →
      ((a.set t idx v epoch).columns.getD k dummyColumn).id =
        (a.columns.getD k dummyColumn).id ∧
      ((a.set t idx v epoch).columns.getD k dummyColumn).version = epoch ∧
      ((a.set t idx v epoch).columns.getD k dummyColumn).chunkV (chunkIdx idx) = epoch ∧
      (∀ ci, ci ≠ chunkIdx idx →
        ((a.set t idx v epoch).columns.getD k dummyColumn).chunkV ci =
          (a.columns.getD k dummyColumn).chunkV ci) ∧
      ((a.set t idx v epoch).columns.getD k dummyColumn).entityV idx = epoch ∧
      (∀ j, j ≠ idx →
        ((a.set t idx v epoch).columns.getD k dummyColumn).entityV j =
          (a.columns.getD k dummyColumn).entityV j) ∧
      ((a.set t idx v epoch).columns.getD k dummyColumn).values idx = v ∧
      (∀ j, j ≠ idx →
        ((a.set t idx v epoch).columns.getD k dummyColumn).values j =
          (a.columns.getD k dummyColumn).values j))

/-- C9: `set<T>(row, value, epoch)` on an archetype containing `T` stamps
exactly the `T` column's `version`, the row's chunk version and the row's
entity version to `epoch` and replaces the value at the row, leaving
every other column and the entity id array unchanged. -/
theorem claim_C9_set (a : Archetype) (t idx v epoch : Nat)
    (hmem : a.containsId t = true) :
    C9Post a t idx v epoch := by
  unfold C9Post
  refine ⟨rfl, by simp [Archetype.set, Archetype.writeOne], ?_⟩
  intro k hk
  have hmap : (a.set t idx v epoch).columns.getD k dummyColumn =
      (if (a.columns.getD k dummyColumn).id = t then
        writeOneCol (a.columns.getD k dummyColumn) idx v epoch
      else a.columns.getD k dummyColumn) := by
    simp only [Archetype.set, Archetype.writeOne]
    exact getD_map_col _ _ _ hk
  constructor
  · intro hne
    rw [hmap, if_neg hne]
  · intro heq
    rw [hmap, if_pos heq]
    refine ⟨rfl, rfl, by simp [writeOneCol], ?_, by simp [writeOneCol], ?_,
      by simp [writeOneCol], ?_⟩
    · intro ci hci
      simp [writeOneCol, Function.update_noteq hci]
    · intro j hj
      simp [writeOneCol, Function.update_noteq hj]
    · intro j hj
      simp [writeOneCol, Function.update_noteq hj]

/-- One-entity archetype with a single component of id 5, all versions 0. -/
def archC9 : Archetype := ⟨[7], [zeroCol 5]⟩

/-- C9 witness: `set` of component 5 at row 0, value 9, epoch 4. -/
theorem claim_C9_witness : C9Post archC9 5 0 9 4 :=
  claim_C9_set archC9 5 0 9 4 (by decide)

/-- C10: `Modified<Alt<T>>::fetch` returns `None` when the column is
missing *or* its column version is strictly below the tracks epoch,
whereas `Modified<&T>::fetch` and `Modified<&mut T>::fetch` return `Some`
whenever the column exists, regardless of its version. -/
theorem claim_C10_modified_fetch (a : Archetype) (t tracks epoch : Nat) :
    (a.findCol t = none →
      modifiedReadFetch a t tracks epoch = none ∧
      modifiedWriteFetch a t tracks epoch = none ∧
      modifiedAltFetch a t tracks epoch = none) ∧
    (∀ c, a.findCol t = some c →
      (modifiedReadFetch a t tracks epoch).isSome = true ∧
      (modifiedWriteFetch a t tracks epoch).isSome = true ∧
      ((modifiedAltFetch a t tracks epoch).isSome = true ↔ tracks ≤ c.version)) := by
  constructor
  · intro h
    simp [modifiedReadFetch, modifiedWriteFetch, modifiedAltFetch, h]
  · intro c h
    simp only [modifiedReadFetch, modifiedWriteFetch, modifiedAltFetch, h]
    refine ⟨rfl, rfl, ?_⟩
    by_cases hv : c.version < tracks
    · rw [if_pos hv]
      simp only [Option.isSome_none, Bool.false_eq_true, false_iff]
      omega
    · rw [if_neg hv]
      simp only [Option.isSome_some, true_iff]
      omega

theorem spawn_entities (a : Archetype) (eid : Nat) (b : Bundle) (epoch : Nat) :
    (a.spawn eid b epoch).entities = a.entities ++ [eid] := by
  simp only [Archetype.spawn]
  rw [writeBundle_entities]

theorem spawn_columns (a : Archetype) (eid : Nat) (b : Bundle) (epoch : Nat) :
    (a.spawn eid b epoch).columns =
      a.columns.map (fun c => bundleWriteCol c a.entities.length b epoch) := by
  simp only [Archetype.spawn]
  exact writeBundle_columns a a.entities.length b epoch

theorem insertBundle_dst_entities (src dst : Archetype) (si : Nat) (b : Bundle) (epoch : Nat) :
    (Archetype.insertBundle src dst si b epoch).2.1.entities =
      dst.entities ++ [src.entities.getD si 0] := by
  show ((relocateDst src dst si dst.entities.length).writeBundle
      dst.entities.length b epoch).entities ++ [src.entities.getD si 0] =
    dst.entities ++ [src.entities.getD si 0]
  rw [writeBundle_entities, relocateDst_entities]

theorem insert_dst_entities (src dst : Archetype) (si t v epoch : Nat) :
    (Archetype.insert src dst si t v epoch).2.1.entities =
      dst.entities ++ [src.entities.getD si 0] := by
  show (relocateDst src dst si dst.entities.length).entities ++ [src.entities.getD si 0] =
    dst.entities ++ [src.entities.getD si 0]
  rw [relocateDst_entities]

theorem remove_dst_entities (src dst : Archetype) (si t : Nat) :
    (Archetype.remove src dst si t).2.1.entities =
      dst.entities ++ [src.entities.getD si 0] := by
  show (relocateDst src dst si dst.entities.length).entities ++ [src.entities.getD si 0] =
    dst.entities ++ [src.entities.getD si 0]
  rw [relocateDst_entities]

theorem dropBundle_dst_entities (src dst : Archetype) (si : Nat) :
    (Archetype.dropBundle src dst si).2.1.entities =
      dst.entities ++ [src.entities.getD si 0] := by
  show (relocateDst src dst si dst.entities.length).entities ++ [src.entities.getD si 0] =
    dst.entities ++ [src.entities.getD si 0]
  rw [relocateDst_entities]

/-- `set` preserves the archetype invariant when the epoch dominates every
column version. -/
theorem set_inv (a : Archetype) (t idx v epoch : Nat) (ha : ArchInv a)
    (hav : ∀ c ∈ a.columns, c.version ≤ epoch) :
    ArchInv (a.set t idx v epoch) := by
  intro c hc
  simp only [Archetype.set, Archetype.writeOne] at hc
  obtain ⟨c0, hc0, rfl⟩ := List.mem_map.mp hc
  show ColInv _ a.entities.length
  by_cases hid : c0.id = t
  · rw [if_pos hid]
    exact (writeOneCol_inv c0 idx v epoch a.entities.length a.entities.length
      (ha c0 hc0) (hav c0 hc0) (fun i hi _ => hi)).1
  · rw [if_neg hid]
    exact ha c0 hc0

/-- `set_bundle` preserves the archetype invariant. -/
theorem setBundle_inv (a : Archetype) (idx epoch : Nat) (b : Bundle) (ha : ArchInv a)
    (hav : ∀ c ∈ a.columns, c.version ≤ epoch) :
    ArchInv (a.setBundle idx b epoch) := by
  intro c hc
  simp only [Archetype.setBundle] at hc
  rw [writeBundle_columns] at hc
  obtain ⟨c0, hc0, rfl⟩ := List.mem_map.mp hc
  have hent : (a.setBundle idx b epoch).entities = a.entities := writeBundle_entities a idx b epoch
  rw [hent]
  exact (bundleWriteCol_inv_preserve b idx epoch a.entities.length c0 (ha c0 hc0) (hav c0 hc0)).1

/-- `spawn` preserves the archetype invariant when the bundle covers every
column (the shape precondition) and the epoch dominates every version. -/
theorem spawn_inv (a : Archetype) (eid epoch : Nat) (b : Bundle) (ha : ArchInv a)
    (hav : ∀ c ∈ a.columns, c.version ≤ epoch)
    (hcov : ∀ c ∈ a.columns, c.id ∈ b.map Prod.fst) :
    ArchInv (a.spawn eid b epoch) := by
  intro c hc
  rw [spawn_columns] at hc
  obtain ⟨c0, hc0, rfl⟩ := List.mem_map.mp hc
  have hlen : (a.spawn eid b epoch).entities.length = a.entities.length + 1 := by
    rw [spawn_entities]; simp
  rw [hlen]
  exact (bundleWriteCol_inv_mem b a.entities.length epoch a.entities.length
    (a.entities.length + 1) (fun i hi hne => by omega) c0 (ha c0 hc0) (hav c0 hc0)
    (hcov c0 hc0)).1

/-- `despawn` preserves the archetype invariant. -/
theorem despawn_inv (a : Archetype) (idx : Nat) (ha : ArchInv a)
    (hidx : idx < a.entities.length) :
    ArchInv (a.despawn idx).1 := by
  intro c hc
  simp only [Archetype.despawn] at hc
  obtain ⟨c0, hc0, rfl⟩ := List.mem_map.mp hc
  have hlen : (a.despawn idx).1.entities.length = a.entities.length - 1 := by
    show (swapRemove a.entities idx).length = _
    exact length_swapRemove _ _
  rw [hlen]
  exact swapRemoveCol_inv c0 idx a.entities.length (ha c0 hc0) hidx

/-- The source archetype of any migration keeps the invariant: every
column is swap-removed at the migrated row. -/
theorem migration_src_inv (src : Archetype) (si : Nat) (hsrc : ArchInv src)
    (hsi : si < src.entities.length) :
    ArchInv { relocateSrcCols src si with entities := swapRemove src.entities si } := by
  intro c hc
  simp only [relocateSrcCols] at hc
  obtain ⟨c0, hc0, rfl⟩ := List.mem_map.mp hc
  show ColInv _ ((swapRemove src.entities si).length)
  rw [length_swapRemove]
  exact swapRemoveCol_inv c0 si src.entities.length (hsrc c0 hc0) hsi

/-- The destination archetype of any migration keeps the invariant,
provided every destination column is covered by the source or by the
deposited bundle and the epoch dominates all involved versions. -/
theorem migration_dst_inv (src dst : Archetype) (si : Nat) (b : Bundle) (epoch : Nat)
    (hsrc : ArchInv src) (hdst : ArchInv dst)
    (hsv : ∀ c ∈ src.columns, c.version ≤ epoch)
    (hdv : ∀ c ∈ dst.columns, c.version ≤ epoch)
    (hsi : si < src.entities.length)
    (hcov : ∀ dc ∈ dst.columns, dc.id ∈ src.ids ∨ dc.id ∈ b.map Prod.fst)
    (pdst : Archetype)
    (hcols : pdst.columns = dst.columns.map (fun dc =>
        bundleWriteCol (relocFoldCol src.columns dc si dst.entities.length)
          dst.entities.length b epoch))
    (hlen : pdst.entities.length = dst.entities.length + 1) :
    ArchInv pdst := by
  intro c hcmem
  rw [hcols] at hcmem
  obtain ⟨dc, hdc, rfl⟩ := List.mem_map.mp hcmem
  rw [hlen]
  have hdcInv := hdst dc hdc
  have hdcV := hdv dc hdc
  have hscs : ∀ sc ∈ src.columns, ColInv sc src.entities.length ∧ sc.version ≤ epoch :=
    fun sc h => ⟨hsrc sc h, hsv sc h⟩
  have hcover : ∀ i, i < dst.entities.length + 1 → i ≠ dst.entities.length →
      i < dst.entities.length := fun i hi hne => by omega
  rcases hcov dc hdc with hins | hbid
  · have h1 := relocFoldCol_inv_mem si dst.entities.length epoch src.entities.length
      dst.entities.length (dst.entities.length + 1) hsi hcover src.columns hscs dc
      hdcInv hdcV hins
    exact (bundleWriteCol_inv_preserve b dst.entities.length epoch
      (dst.entities.length + 1) _ h1.1 h1.2).1
  · have h1 := relocFoldCol_inv_preserve si dst.entities.length epoch src.entities.length
      dst.entities.length hsi src.columns hscs dc hdcInv hdcV
    have h2 := bundleWriteCol_inv_mem b dst.entities.length epoch dst.entities.length
      (dst.entities.length + 1) hcover _ h1.1 h1.2 (by rw [relocFoldCol_id]; exact hbid)
    exact h2.1

/-- Everything C4 asserts about a migration's destination rows, for an
operation whose bundle-deposited ids are `bids` (empty for `remove` and
`drop_bundle`, the single inserted id for `insert`): each destination
column keeps its id; a column fed from the bundle is stamped at the
operation's epoch; a column absent from the bundle but shared with the
source ends with the destination row's entity version equal to the source
row's pre-operation entity version, with chunk version and column version
only raised to the max of their prior value and that entity version, and
with the source row's value copied in. -/
def C4Post (src dst : Archetype) (srcIdx : Nat) (bids : List Nat) (epoch : Nat)
    (pdst : Archetype) : Prop :=
  pdst.columns.length = dst.columns.length ∧
  ∀ k, k < dst.columns.length →
    ((pdst.columns.getD k dummyColumn).id = (dst.columns.getD k dummyColumn).id) ∧
    ((dst.columns.getD k dummyColumn).id ∈ bids →
      (pdst.columns.getD k dummyColumn).entityV dst.entities.length = epoch ∧
      (pdst.columns.getD k dummyColumn).version = epoch ∧
      (pdst.columns.getD k dummyColumn).chunkV (chunkIdx dst.entities.length) = epoch) ∧
    ((dst.columns.getD k dummyColumn).id ∉ bids →
      ∀ sc ∈ src.columns, sc.id = (dst.columns.getD k dummyColumn).id →
        (pdst.columns.getD k dummyColumn).entityV dst.entities.length = sc.entityV srcIdx ∧
        (pdst.columns.getD k dummyColumn).chunkV (chunkIdx dst.entities.length)
          = max ((dst.columns.getD k dummyColumn).chunkV (chunkIdx dst.entities.length))
              (sc.entityV srcIdx) ∧
        (pdst.columns.getD k dummyColumn).version
          = max (dst.columns.getD k dummyColumn).version (sc.entityV srcIdx) ∧
        (pdst.columns.getD k dummyColumn).values dst.entities.length = sc.values srcIdx)

/-- `C4Post` holds for any destination whose columns have the
relocate-then-deposit per-column shape. -/
theorem c4post_of_cols (src dst : Archetype) (si : Nat) (b : Bundle) (epoch : Nat)
    (pdst : Archetype)
    (hnd : (src.columns.map (·.id)).Nodup)
    (hcols : pdst.columns = dst.columns.map (fun dc =>
        bundleWriteCol (relocFoldCol src.columns dc si dst.entities.length)
          dst.entities.length b epoch)) :
    C4Post src dst si (b.map Prod.fst) epoch pdst := by
  constructor
  · rw [hcols]; simp
  intro k hk
  have hget : pdst.columns.getD k dummyColumn =
      bundleWriteCol
        (relocFoldCol src.columns (dst.columns.getD k dummyColumn) si dst.entities.length)
        dst.entities.length b epoch := by
    rw [hcols]; exact getD_map_col _ _ _ hk
  refine ⟨?_, ?_, ?_⟩
  · rw [hget, bundleWriteCol_id, relocFoldCol_id]
  · intro hmem
    have hs := bundleWriteCol_mem_stamped
      (relocFoldCol src.columns (dst.columns.getD k dummyColumn) si dst.entities.length)
      dst.entities.length b epoch (by rw [relocFoldCol_id]; exact hmem)
    rw [hget]
    exact ⟨hs.2.2, hs.1, hs.2.1⟩
  · intro hmem sc hsc hid
    have hnm : (relocFoldCol src.columns (dst.columns.getD k dummyColumn) si
        dst.entities.length).id ∉ b.map Prod.fst := by
      rw [relocFoldCol_id]; exact hmem
    rw [hget, bundleWriteCol_not_mem _ _ _ _ hnm,
      relocFoldCol_mem src.columns (dst.columns.getD k dummyColumn) sc si
        dst.entities.length hnd hsc hid]
    refine ⟨?_, ?_, ?_, ?_⟩
    · simp [relocCol]
    · simp [relocCol, if_lt_eq_max]
    · simp [relocCol, if_lt_eq_max]
    · simp [relocCol]

/-- C4: across `insert_bundle`, `insert`, `remove` and `drop_bundle`,
every destination column shared with the source but not fed from the
bundle retains the source row's pre-operation entity version at the new
row (not the world epoch), raises chunk/column versions only to the max
with that version, and keeps the value; exactly the bundle-fed columns
(the single inserted component for `insert`, none for `remove` and
`drop_bundle`) are stamped at the operation's epoch. -/
theorem claim_C4_relocation_versions (src dst : Archetype) (srcIdx t v epoch : Nat) (b : Bundle)
    (hnd : (src.columns.map (·.id)).Nodup) :
    C4Post src dst srcIdx (b.map Prod.fst) epoch
      (Archetype.insertBundle src dst srcIdx b epoch).2.1 ∧
    C4Post src dst srcIdx [t] epoch
      (Archetype.insert src dst srcIdx t v epoch).2.1 ∧
    C4Post src dst srcIdx [] epoch
      (Archetype.remove src dst srcIdx t).2.1 ∧
    C4Post src dst srcIdx [] epoch
      (Archetype.dropBundle src dst srcIdx).2.1 := by
  refine ⟨?_, ?_, ?_, ?_⟩
  · exact c4post_of_cols src dst srcIdx b epoch _ hnd
      (migrationDstCols src dst srcIdx b epoch)
  · exact c4post_of_cols src dst srcIdx [(t, v)] epoch _ hnd
      (migrationDstCols src dst srcIdx [(t, v)] epoch)
  · exact c4post_of_cols src dst srcIdx [] epoch _ hnd
      (migrationDstCols src dst srcIdx [] epoch)
  · exact c4post_of_cols src dst srcIdx [] epoch _ hnd
      (migrationDstCols src dst srcIdx [] epoch)

/-- C5: every mutating archetype operation — `spawn`, `despawn`, `set`,
`set_bundle`, `insert`, `insert_bundle`, `remove`, `drop_bundle` —
preserves the version invariant
`entity_versions[i] ≤ chunk_versions[chunk_of(i)] ≤ column.version` on
all in-use rows of every real column of every archetype it touches,
assuming the invariant held before (`ArchInv`, which also records that
untouched chunk versions stay below the column version, as
zero-initialisation guarantees) and the operation's epoch is at least
every column version it may overwrite.  `b` is the bundle spawned or set
on `a`; `b2` the bundle deposited by `insert_bundle` into `dst`. -/
theorem claim_C5_invariant_preservation (a src dst : Archetype)
    (t idx srcIdx v eid epoch : Nat) (b b2 : Bundle)
    (ha : ArchInv a) (hsrc : ArchInv src) (hdst : ArchInv dst)
    (hav : ∀ c ∈ a.columns, c.version ≤ epoch)
    (hsv : ∀ c ∈ src.columns, c.version ≤ epoch)
    (hdv : ∀ c ∈ dst.columns, c.version ≤ epoch)
    (hidx : idx < a.entities.length)
    (hsi : srcIdx < src.entities.length)
    (hcovA : ∀ c ∈ a.columns, c.id ∈ b.map Prod.fst)
    (hcovB : ∀ dc ∈ dst.columns, dc.id ∈ src.ids ∨ dc.id ∈ b2.map Prod.fst)
    (hcovI : ∀ dc ∈ dst.columns, dc.id ∈ src.ids ∨ dc.id = t)
    (hcovR : ∀ dc ∈ dst.columns, dc.id ∈ src.ids) :
    ArchInv (a.spawn eid b epoch) ∧
    ArchInv (a.despawn idx).1 ∧
    ArchInv (a.set t idx v epoch) ∧
    ArchInv (a.setBundle idx b epoch) ∧
    ArchInv (Archetype.insert src dst srcIdx t v epoch).1 ∧
    ArchInv (Archetype.insert src dst srcIdx t v epoch).2.1 ∧
    ArchInv (Archetype.insertBundle src dst srcIdx b2 epoch).1 ∧
    ArchInv (Archetype.insertBundle src dst srcIdx b2 epoch).2.1 ∧
    ArchInv (Archetype.remove src dst srcIdx t).1 ∧
    ArchInv (Archetype.remove src dst srcIdx t).2.1 ∧
    ArchInv (Archetype.dropBundle src dst srcIdx).1 ∧
    ArchInv (Archetype.dropBundle src dst srcIdx).2.1 := by
  have hsrcPost : ArchInv
      { relocateSrcCols src srcIdx with entities := swapRemove src.entities srcIdx } :=
    migration_src_inv src srcIdx hsrc hsi
  refine ⟨spawn_inv a eid epoch b ha hav hcovA,
    despawn_inv a idx ha hidx,
    set_inv a t idx v epoch ha hav,
    setBundle_inv a idx epoch b ha hav,
    hsrcPost, ?_, hsrcPost, ?_, hsrcPost, ?_, hsrcPost, ?_⟩
  · exact migration_dst_inv src dst srcIdx [(t, v)] epoch hsrc hdst hsv hdv hsi
      (fun dc h => (hcovI dc h).imp_right (fun he => by simp [he]))
      (Archetype.insert src dst srcIdx t v epoch).2.1
      (migrationDstCols src dst srcIdx [(t, v)] epoch)
      (by rw [insert_dst_entities]; simp)
  · exact migration_dst_inv src dst srcIdx b2 epoch hsrc hdst hsv hdv hsi hcovB
      (Archetype.insertBundle src dst srcIdx b2 epoch).2.1
      (migrationDstCols src dst srcIdx b2 epoch)
      (by rw [insertBundle_dst_entities]; simp)
  · exact migration_dst_inv src dst srcIdx [] epoch hsrc hdst hsv hdv hsi
      (fun dc h => Or.inl (hcovR dc h))
      (Archetype.remove src dst srcIdx t).2.1
      (migrationDstCols src dst srcIdx [] epoch)
      (by rw [remove_dst_entities]; simp)
  · exact migration_dst_inv src dst srcIdx [] epoch hsrc hdst hsv hdv hsi
      (fun dc h => Or.inl (hcovR dc h))
      (Archetype.dropBundle src dst srcIdx).2.1
      (migrationDstCols src dst srcIdx [] epoch)
      (by rw [dropBundle_dst_entities]; simp)

/-- Source archetype for the C4/C5 witnesses: one entity, columns 1 and 2
with nontrivial versions. -/
def srcW : Archetype :=
  ⟨[3], [⟨1, 5, fun _ => 4, fun _ => 5, fun _ => 11⟩, ⟨2, 7, fun _ => 6, fun _ => 7, fun _ => 12⟩]⟩

/-- Destination archetype for the C4 witness: columns 1, 2 and 9, empty. -/
def dstW : Archetype :=
  ⟨[], [zeroCol 1, zeroCol 2, zeroCol 9]⟩

/-- A constant-valued column satisfying `ColInv` at any length. -/
theorem colInv_const (cid ver ev cv vals len : Nat) (h1 : ev ≤ cv) (h2 : cv ≤ ver) :
    ColInv ⟨cid, ver, fun _ => ev, fun _ => cv, fun _ => vals⟩ len :=
  ⟨fun _ _ => h1, fun _ => h2⟩

/-- One-entity archetype with a single column of id 5 (versions 3/2/1)
for the C5 witness. -/
def colW5 : Column := ⟨5, 3, fun _ => 1, fun _ => 2, fun _ => 0⟩

/-- The single-archetype operand of the C5 witness. -/
def aW : Archetype := ⟨[7], [colW5]⟩

/-- Migration destination of the C5 witness: columns 1 and 2, empty. -/
def dstW2 : Archetype := ⟨[], [zeroCol 1, zeroCol 2]⟩

theorem aW_inv : ArchInv aW := by
  intro c hc
  simp only [aW, List.mem_singleton] at hc
  subst hc
  exact colInv_const 5 3 1 2 0 _ (by decide) (by decide)

theorem srcW_inv : ArchInv srcW := by
  intro c hc
  simp only [srcW, List.mem_cons, List.mem_singleton, List.not_mem_nil, or_false] at hc
  rcases hc with rfl | rfl
  · exact colInv_const 1 5 4 5 11 _ (by decide) (by decide)
  · exact colInv_const 2 7 6 7 12 _ (by decide) (by decide)

theorem dstW2_inv : ArchInv dstW2 := by
  intro c hc
  simp only [dstW2, zeroCol, List.mem_cons, List.mem_singleton, List.not_mem_nil, or_false] at hc
  rcases hc with rfl | rfl
  · exact colInv_const 1 0 0 0 0 _ (by decide) (by decide)
  · exact colInv_const 2 0 0 0 0 _ (by decide) (by decide)

/-- C5 witness: all eight operations applied to the concrete archetypes
`aW` (spawn/despawn/set/set_bundle) and `srcW → dstW2` (migrations) at
epoch 8 preserve the invariant. -/
theorem claim_C5_witness :
    ArchInv (aW.spawn 8 [(5, 1)] 8) ∧
    ArchInv (aW.despawn 0).1 ∧
    ArchInv (aW.set 2 0 9 8) ∧
    ArchInv (aW.setBundle 0 [(5, 1)] 8) ∧
    ArchInv (Archetype.insert srcW dstW2 0 2 9 8).1 ∧
    ArchInv (Archetype.insert srcW dstW2 0 2 9 8).2.1 ∧
    ArchInv (Archetype.insertBundle srcW dstW2 0 [(2, 4)] 8).1 ∧
    ArchInv (Archetype.insertBundle srcW dstW2 0 [(2, 4)] 8).2.1 ∧
    ArchInv (Archetype.remove srcW dstW2 0 2).1 ∧
    ArchInv (Archetype.remove srcW dstW2 0 2).2.1 ∧
    ArchInv (Archetype.dropBundle srcW dstW2 0).1 ∧
    ArchInv (Archetype.dropBundle srcW dstW2 0).2.1 :=
  claim_C5_invariant_preservation aW srcW dstW2 2 0 0 9 8 8 [(5, 1)] [(2, 4)]
    aW_inv srcW_inv dstW2_inv
    (by decide) (by decide) (by decide) (by decide) (by decide)
    (by decide) (by decide) (by decide) (by decide)

/-- C4 witness: migrating row 0 of `srcW` into `dstW` with bundle
`[(9, 42)]` (respectively single insert of component 9, remove/drop of
component 2) at epoch 8. -/
theorem claim_C4_witness :
    C4Post srcW dstW 0 ([(9, 42)].map Prod.fst) 8
      (Archetype.insertBundle srcW dstW 0 [(9, 42)] 8).2.1 ∧
    C4Post srcW dstW 0 [9] 8 (Archetype.insert srcW dstW 0 9 42 8).2.1 ∧
    C4Post srcW dstW 0 [] 8 (Archetype.remove srcW dstW 0 9).2.1 ∧
    C4Post srcW dstW 0 [] 8 (Archetype.dropBundle srcW dstW 0).2.1 :=
  claim_C4_relocation_versions srcW dstW 0 9 42 8 [(9, 42)] (by decide)

/-- The column of id 5 at version 10 used by the C10 witness. -/
def colC10 : Column := ⟨5, 10, fun _ => 0, fun _ => 0, fun _ => 0⟩

/-- One-column archetype for the C10 witness. -/
def archC10 : Archetype := ⟨[], [colC10]⟩

/-- C10 witness: with the column at version 10 and tracks epoch 11, the
read and write fetches succeed while the `Alt` fetch does not
(`11 ≤ 10` is false). -/
theorem claim_C10_witness :
    (modifiedReadFetch archC10 5 11 12).isSome = true ∧
    (modifiedWriteFetch archC10 5 11 12).isSome = true ∧
    ((modifiedAltFetch archC10 5 11 12).isSome = true ↔ 11 ≤ 10) :=
  (claim_C10_modified_fetch archC10 5 11 12).2 colC10 rfl

end Edict
